import Mathlib

/-!
Verification of the tarantool-module net_box client against its
natural-language specification.

The repository sources under study provide the `RemoteSpace` facade
(`src/tarantool/src/net_box/space.rs`) together with its tests.  The
remaining net_box internals (the wire codec, the schema cache, the request
multiplexer and the connection state machine) are exercised only through
tests and callers here, so they are modelled from the specification text
and marked as such in their doc comments.
-/

namespace Tarantool

/-! ## Wire codec

Modelled from the spec: the wire codec
(`encode_request`/`decode_response`, §4.1) is not under the provided
sources.  The spec describes a compact binary form with length-prefixed
payloads and nested maps/arrays/scalars; we model field values and a
length-prefixed tagged byte serialization for them.  -/

/-- Modelled from the spec: a variable-length encoding of an unsigned
integer into bytes (7 value bits per byte, continuation bit set on all but
the last byte), used for scalar magnitudes and element counts. -/
def natEncode (n : Nat) : List Nat :=
  if n < 128 then [n]
  else (n % 128 + 128) :: natEncode (n / 128)
decreasing_by exact Nat.div_lt_self (by omega) (by omega)

/-- Modelled from the spec: decoder for `natEncode`, returning the decoded
number and the remaining bytes, or `none` on a truncated input. -/
def natDecode : List Nat → Option (Nat × List Nat)
  | [] => none
  | b :: rest =>
    if b < 128 then some (b, rest)
    else
      match natDecode rest with
      | some (m, rest2) => some (m * 128 + (b - 128), rest2)
      | none => none

theorem natEncode_ne_nil (n : Nat) : natEncode n ≠ [] := by
  unfold natEncode
  split <;> simp

theorem natDecode_natEncode (n : Nat) (rest : List Nat) :
    natDecode (natEncode n ++ rest) = some (n, rest) := by
  induction n using Nat.strong_induction_on with
  | _ n ih =>
    unfold natEncode
    split
    · simp [natDecode, *]
    · rename_i h
      have hdiv : n / 128 < n := Nat.div_lt_self (by omega) (by omega)
      simp only [List.cons_append, natDecode, List.append_eq]
      have hb : ¬ (n % 128 + 128 < 128) := by omega
      rw [if_neg hb, ih (n / 128) hdiv]
      have hmod : n / 128 * 128 + (n % 128 + 128 - 128) = n := by
        have := Nat.div_add_mod n 128
        omega
      simp only [Nat.add_sub_cancel] at hmod ⊢
      simp [hmod]

/-- Modelled from the spec: the supported field types of the serialization
format — numeric, string, binary, nil, boolean, and nested array/map
(§4.1 of the spec). -/
inductive Value where
  | nil
  | bool (b : Bool)
  | int (n : Int)
  | str (s : List Nat)
  | bin (b : List Nat)
  | arr (xs : List Value)
  | map (xs : List (Value × Value))

mutual

/-- Modelled from the spec: encoding of one field value as a tagged,
length-prefixed byte sequence (the compact binary form of §4.1). -/
def encodeVal : Value → List Nat
  | .nil => [0xc0]
  | .bool false => [0xc2]
  | .bool true => [0xc3]
  | .int n => if n < 0 then 0xd3 :: natEncode n.natAbs else 0xcf :: natEncode n.natAbs
  | .str s => 0xdb :: (natEncode s.length ++ s)
  | .bin b => 0xc6 :: (natEncode b.length ++ b)
  | .arr xs => 0xdd :: (natEncode xs.length ++ encodeList xs)
  | .map xs => 0xdf :: (natEncode xs.length ++ encodePairs xs)

/-- Modelled from the spec: concatenated encodings of array elements. -/
def encodeList : List Value → List Nat
  | [] => []
  | v :: vs => encodeVal v ++ encodeList vs

/-- Modelled from the spec: concatenated encodings of map entries, key
before value. -/
def encodePairs : List (Value × Value) → List Nat
  | [] => []
  | (k, v) :: xs => encodeVal k ++ (encodeVal v ++ encodePairs xs)

end

mutual

/-- Modelled from the spec: fuel-indexed decoder for one field value;
returns the value and the remaining bytes, `none` on malformed input. -/
def decodeVal : Nat → List Nat → Option (Value × List Nat)
  | 0, _ => none
  | _ + 1, [] => none
  | fuel + 1, b :: r =>
    if b = 0xc0 then some (.nil, r)
    else if b = 0xc2 then some (.bool false, r)
    else if b = 0xc3 then some (.bool true, r)
    else if b = 0xcf then
      match natDecode r with
      | some (m, r1) => some (.int (Int.ofNat m), r1)
      | none => none
    else if b = 0xd3 then
      match natDecode r with
      | some (m, r1) => some (.int (-(Int.ofNat m)), r1)
      | none => none
    else if b = 0xdb then
      match natDecode r with
      | some (n, r1) =>
        if n ≤ r1.length then some (.str (r1.take n), r1.drop n) else none
      | none => none
    else if b = 0xc6 then
      match natDecode r with
      | some (n, r1) =>
        if n ≤ r1.length then some (.bin (r1.take n), r1.drop n) else none
      | none => none
    else if b = 0xdd then
      match natDecode r with
      | some (n, r1) =>
        match decodeList fuel n r1 with
        | some (xs, r2) => some (.arr xs, r2)
        | none => none
      | none => none
    else if b = 0xdf then
      match natDecode r with
      | some (n, r1) =>
        match decodePairs fuel n r1 with
        | some (xs, r2) => some (.map xs, r2)
        | none => none
      | none => none
    else none
termination_by fuel _ => (fuel, 0)

/-- Modelled from the spec: decoder for a counted sequence of array
elements. -/
def decodeList : Nat → Nat → List Nat → Option (List Value × List Nat)
  | _, 0, r => some ([], r)
  | fuel, n + 1, r =>
    match decodeVal fuel r with
    | some (v, r1) =>
      match decodeList fuel n r1 with
      | some (vs, r2) => some (v :: vs, r2)
      | none => none
    | none => none
termination_by fuel n _ => (fuel, n + 1)

/-- Modelled from the spec: decoder for a counted sequence of map
entries. -/
def decodePairs : Nat → Nat → List Nat → Option (List (Value × Value) × List Nat)
  | _, 0, r => some ([], r)
  | fuel, n + 1, r =>
    match decodeVal fuel r with
    | some (k, r1) =>
      match decodeVal fuel r1 with
      | some (v, r2) =>
        match decodePairs fuel n r2 with
        | some (xs, r3) => some ((k, v) :: xs, r3)
        | none => none
      | none => none
    | none => none
termination_by fuel n _ => (fuel, n + 1)

end

mutual

/-- Nesting depth of a value: one more than the depth of its deepest
child; scalars have depth one. -/
def depthVal : Value → Nat
  | .arr xs => depthList xs + 1
  | .map xs => depthPairs xs + 1
  | _ => 1

/-- Maximal nesting depth over a list of values. -/
def depthList : List Value → Nat
  | [] => 0
  | v :: vs => max (depthVal v) (depthList vs)

/-- Maximal nesting depth over a list of map entries. -/
def depthPairs : List (Value × Value) → Nat
  | [] => 0
  | (k, v) :: xs => max (max (depthVal k) (depthVal v)) (depthPairs xs)

end

theorem depthVal_pos (v : Value) : 1 ≤ depthVal v := by
  cases v <;> simp [depthVal]

theorem decode_encode_fuel (fuel : Nat) :
    (∀ v rest, depthVal v ≤ fuel →
        decodeVal fuel (encodeVal v ++ rest) = some (v, rest)) ∧
    (∀ xs rest, depthList xs ≤ fuel →
        decodeList fuel xs.length (encodeList xs ++ rest) = some (xs, rest)) ∧
    (∀ xs rest, depthPairs xs ≤ fuel →
        decodePairs fuel xs.length (encodePairs xs ++ rest) = some (xs, rest)) := by
  induction fuel with
  | zero =>
    refine ⟨fun v rest h => absurd h (by have := depthVal_pos v; omega), ?_, ?_⟩
    · intro xs rest h
      cases xs with
      | nil => simp [decodeList, encodeList]
      | cons v vs =>
        exfalso
        have h1 := depthVal_pos v
        simp [depthList] at h
        omega
    · intro xs rest h
      cases xs with
      | nil => simp [decodePairs, encodePairs]
      | cons kv xs =>
        exfalso
        obtain ⟨k, v⟩ := kv
        have h1 := depthVal_pos k
        simp [depthPairs] at h
        omega
  | succ fuel ih =>
    obtain ⟨ihv, ihl, ihp⟩ := ih
    have hval : ∀ v rest, depthVal v ≤ fuel + 1 →
        decodeVal (fuel + 1) (encodeVal v ++ rest) = some (v, rest) := by
      intro v rest hd
      cases v with
      | nil => simp [encodeVal, decodeVal]
      | bool b => cases b <;> simp [encodeVal, decodeVal]
      | int n =>
        by_cases hneg : n < 0
        · have h1 : (Int.ofNat n.natAbs) = -n :=
            Int.ofNat_natAbs_of_nonpos (le_of_lt hneg)
          simp only [encodeVal, if_pos hneg, List.cons_append, decodeVal]
          norm_num [natDecode_natEncode, h1]
          simp [abs_of_neg hneg]
        · have h1 : (Int.ofNat n.natAbs) = n :=
            Int.natAbs_of_nonneg (not_lt.mp hneg)
          simp only [encodeVal, if_neg hneg, List.cons_append, decodeVal]
          norm_num [natDecode_natEncode, h1]
          omega
      | str s =>
        simp only [encodeVal, List.cons_append, List.append_assoc, decodeVal]
        norm_num [natDecode_natEncode]
      | bin b =>
        simp only [encodeVal, List.cons_append, List.append_assoc, decodeVal]
        norm_num [natDecode_natEncode]
      | arr xs =>
        have hxs : depthList xs ≤ fuel := by
          simp [depthVal] at hd
          omega
        simp only [encodeVal, List.cons_append, List.append_assoc, decodeVal]
        norm_num [natDecode_natEncode, ihl xs rest hxs]
      | map xs =>
        have hxs : depthPairs xs ≤ fuel := by
          simp [depthVal] at hd
          omega
        simp only [encodeVal, List.cons_append, List.append_assoc, decodeVal]
        norm_num [natDecode_natEncode, ihp xs rest hxs]
    refine ⟨hval, ?_, ?_⟩
    · intro xs
      induction xs with
      | nil => intro rest _; simp [decodeList, encodeList]
      | cons v vs ihvs =>
        intro rest h
        simp only [depthList, max_le_iff] at h
        simp only [encodeList, List.append_assoc, List.length_cons, decodeList]
        simp [hval v _ h.1, ihvs _ h.2]
    · intro xs
      induction xs with
      | nil => intro rest _; simp [decodePairs, encodePairs]
      | cons kv xs ihxs =>
        obtain ⟨k, v⟩ := kv
        intro rest h
        simp only [depthPairs, max_le_iff] at h
        simp only [encodePairs, List.append_assoc, List.length_cons, decodePairs]
        simp [hval k _ h.1.1, hval v _ h.1.2, ihxs _ h.2]

theorem depth_le_length_fuel (fuel : Nat) :
    (∀ v, depthVal v ≤ fuel → depthVal v ≤ (encodeVal v).length) ∧
    (∀ xs, depthList xs ≤ fuel → depthList xs ≤ (encodeList xs).length) ∧
    (∀ xs, depthPairs xs ≤ fuel → depthPairs xs ≤ (encodePairs xs).length) := by
  induction fuel with
  | zero =>
    refine ⟨fun v h => absurd h (by have := depthVal_pos v; omega), ?_, ?_⟩
    · intro xs h
      cases xs with
      | nil => simp [depthList]
      | cons v vs =>
        exfalso
        have h1 := depthVal_pos v
        simp [depthList] at h
        omega
    · intro xs h
      cases xs with
      | nil => simp [depthPairs]
      | cons kv xs =>
        exfalso
        obtain ⟨k, v⟩ := kv
        have h1 := depthVal_pos k
        simp [depthPairs] at h
        omega
  | succ fuel ih =>
    obtain ⟨ihv, ihl, ihp⟩ := ih
    have hval : ∀ v, depthVal v ≤ fuel + 1 → depthVal v ≤ (encodeVal v).length := by
      intro v hd
      cases v with
      | nil => simp [encodeVal, depthVal]
      | bool b => cases b <;> simp [encodeVal, depthVal]
      | int n =>
        by_cases hneg : n < 0 <;> simp [encodeVal, depthVal, hneg]
      | str s => simp [encodeVal, depthVal]
      | bin b => simp [encodeVal, depthVal]
      | arr xs =>
        have hxs : depthList xs ≤ fuel := by
          simp [depthVal] at hd
          omega
        have := ihl xs hxs
        simp only [encodeVal, depthVal, List.length_cons, List.length_append]
        omega
      | map xs =>
        have hxs : depthPairs xs ≤ fuel := by
          simp [depthVal] at hd
          omega
        have := ihp xs hxs
        simp only [encodeVal, depthVal, List.length_cons, List.length_append]
        omega
    refine ⟨hval, ?_, ?_⟩
    · intro xs
      induction xs with
      | nil => intro _; simp [depthList]
      | cons v vs ihvs =>
        intro h
        simp only [depthList, max_le_iff] at h
        have h1 := hval v h.1
        have h2 := ihvs h.2
        simp only [depthList, encodeList, List.length_append, max_le_iff]
        omega
    · intro xs
      induction xs with
      | nil => intro _; simp [depthPairs]
      | cons kv xs ihxs =>
        obtain ⟨k, v⟩ := kv
        intro h
        simp only [depthPairs, max_le_iff] at h
        have h1 := hval k h.1.1
        have h2 := hval v h.1.2
        have h3 := ihxs h.2
        simp only [depthPairs, encodePairs, List.length_append, max_le_iff]
        omega

/-- Modelled from the spec: encoding of one field value (§4.1 round-trip
contract, `encode`). -/
def encode (v : Value) : List Nat := encodeVal v

/-- Modelled from the spec: decoding of one field value from a full byte
sequence (§4.1 round-trip contract, `decode`); `none` on malformed or
trailing input. -/
def decode (bytes : List Nat) : Option Value :=
  match decodeVal bytes.length bytes with
  | some (v, []) => some v
  | _ => none

/-! ## Connection state machine and request multiplexer

Modelled from the spec: the connection state machine (§4.4), the request
multiplexer (§4.3) and `Conn`/`ConnInner` are not under the provided
sources (only their tests and the `RemoteSpace` facade are).  -/

/-- Modelled from the spec: the error taxonomy of §7 (`NotFound` is an
empty result, not an error, so it does not appear here). -/
inductive Error where
  | protocolErr
  | serverErr (code : Nat)
  | timeout
  | connectionLost
  | connectionClosed
deriving DecidableEq

/-- Modelled from the spec: the lifecycle states of the connection state
machine (§4.4). -/
inductive ConnState where
  | initial
  | connecting
  | authenticating
  | ready
  | broken
  | reconnecting
  | closed
deriving DecidableEq

/-- Modelled from the spec: the three ways a PendingRequest can be
resolved (§4.3): a matching response, a timeout, or connection loss. -/
inductive Resolution where
  | response
  | timeout
  | connectionLost
deriving DecidableEq

/-- Modelled from the spec: the observable state of one connection — its
lifecycle state, the reconnect interval, the correlation-id counter, the
table of outstanding (submitted, unresolved) correlation ids, and the log
of resolutions delivered to waiters. -/
structure ConnModel where
  state : ConnState
  reconnectAfter : Nat
  nextSync : Nat
  outstanding : List Nat
  resolutions : List (Nat × Resolution)
deriving DecidableEq

/-- Modelled from the spec: events driving the connection — submissions,
arriving response frames, per-request timeouts, transport errors, the
connect/authenticate handshake, the reconnect timer, and explicit
shutdown. -/
inductive Event where
  | submit
  | frameArrived (sync : Nat)
  | timeoutFired (sync : Nat)
  | ioError
  | connectStart
  | connectOk
  | connectFail
  | authOk
  | authFail
  | tick
  | close
deriving DecidableEq

/-- Modelled from the spec: on leaving `Ready` for `Broken`/`Closed`,
every outstanding PendingRequest is resolved with a ConnectionLost
error. -/
def resolveAll (outs : List Nat) : List (Nat × Resolution) :=
  outs.map (fun k => (k, Resolution.connectionLost))

/-- Modelled from the spec: one step of the connection state machine and
request multiplexer (§4.3, §4.4).  Correlation ids come from the
monotonically increasing counter; an unmatched or out-of-state event is
dropped; a zero reconnect interval disables automatic reconnection. -/
def step (m : ConnModel) : Event → ConnModel
  | .submit =>
    match m.state with
    | .broken => m
    | .closed => m
    | _ => { m with nextSync := m.nextSync + 1,
                    outstanding := m.outstanding ++ [m.nextSync] }
  | .frameArrived k =>
    if m.state = .ready ∧ k ∈ m.outstanding then
      { m with outstanding := m.outstanding.erase k,
               resolutions := m.resolutions ++ [(k, .response)] }
    else m
  | .timeoutFired k =>
    if k ∈ m.outstanding then
      { m with outstanding := m.outstanding.erase k,
               resolutions := m.resolutions ++ [(k, .timeout)] }
    else m
  | .ioError =>
    match m.state with
    | .ready | .connecting | .authenticating =>
      { m with state := .broken, outstanding := [],
               resolutions := m.resolutions ++ resolveAll m.outstanding }
    | _ => m
  | .connectStart =>
    if m.state = .initial then { m with state := .connecting } else m
  | .connectOk =>
    if m.state = .connecting ∨ m.state = .reconnecting then
      { m with state := .authenticating }
    else m
  | .connectFail =>
    if m.state = .connecting ∨ m.state = .reconnecting then
      { m with state := .broken, outstanding := [],
               resolutions := m.resolutions ++ resolveAll m.outstanding }
    else m
  | .authOk =>
    if m.state = .authenticating then { m with state := .ready } else m
  | .authFail =>
    if m.state = .authenticating then
      { m with state := .broken, outstanding := [],
               resolutions := m.resolutions ++ resolveAll m.outstanding }
    else m
  | .tick =>
    if m.state = .broken ∧ m.reconnectAfter ≠ 0 then
      { m with state := .reconnecting }
    else m
  | .close =>
    if m.state = .closed then m
    else
      { m with state := .closed, outstanding := [],
               resolutions := m.resolutions ++ resolveAll m.outstanding }

/-- Modelled from the spec: the state of a freshly constructed connection
handle — no socket, empty pending table, counter at zero. -/
def ConnModel.init (reconnectAfter : Nat) : ConnModel :=
  { state := .initial, reconnectAfter, nextSync := 0,
    outstanding := [], resolutions := [] }

/-- Run the connection model over a sequence of events. -/
def run (m : ConnModel) (evs : List Event) : ConnModel :=
  evs.foldl step m

/-- Modelled from the spec: `is_connected` reports whether the connection
is in the `Ready` state. -/
def ConnModel.is_connected (m : ConnModel) : Bool :=
  m.state == .ready

/-- Invariant of the connection model: outstanding correlation ids are
distinct, below the counter, and disjoint from the already-resolved ids;
resolved ids are distinct and below the counter; a `Broken`/`Closed`
connection has no outstanding requests. -/
def Inv (m : ConnModel) : Prop :=
  m.outstanding.Nodup ∧
  (∀ k ∈ m.outstanding, k < m.nextSync) ∧
  (m.resolutions.map Prod.fst).Nodup ∧
  (∀ k ∈ m.resolutions.map Prod.fst, k < m.nextSync) ∧
  (∀ k ∈ m.outstanding, k ∉ m.resolutions.map Prod.fst) ∧
  ((m.state = .broken ∨ m.state = .closed) → m.outstanding = [])

theorem inv_init (reconnectAfter : Nat) : Inv (ConnModel.init reconnectAfter) := by
  simp [Inv, ConnModel.init]

theorem map_fst_resolveAll (outs : List Nat) :
    (resolveAll outs).map Prod.fst = outs := by
  induction outs with
  | nil => rfl
  | cons a l ih => simpa [resolveAll] using ih

theorem inv_disconnect (st' : ConnState) (ra ns : Nat) (outs : List Nat)
    (res : List (Nat × Resolution))
    (h1 : outs.Nodup) (h2 : ∀ k ∈ outs, k < ns)
    (h3 : (res.map Prod.fst).Nodup) (h4 : ∀ k ∈ res.map Prod.fst, k < ns)
    (h5 : ∀ k ∈ outs, k ∉ res.map Prod.fst) :
    Inv { state := st', reconnectAfter := ra, nextSync := ns,
          outstanding := [], resolutions := res ++ resolveAll outs } := by
  refine ⟨by simp, by simp, ?_, ?_, by simp, by simp⟩
  · simp only [List.map_append, map_fst_resolveAll, List.nodup_append]
    exact ⟨h3, h1, fun a ha hb => h5 a hb ha⟩
  · intro k hk
    simp only [List.map_append, map_fst_resolveAll, List.mem_append] at hk
    rcases hk with hk | hk
    · exact h4 k hk
    · exact h2 k hk

theorem inv_resolve_one (st' : ConnState) (ra ns k : Nat) (outs : List Nat)
    (res : List (Nat × Resolution)) (r : Resolution)
    (hst : st' = ConnState.broken ∨ st' = ConnState.closed → outs = [])
    (hk : k ∈ outs)
    (h1 : outs.Nodup) (h2 : ∀ j ∈ outs, j < ns)
    (h3 : (res.map Prod.fst).Nodup) (h4 : ∀ j ∈ res.map Prod.fst, j < ns)
    (h5 : ∀ j ∈ outs, j ∉ res.map Prod.fst) :
    Inv { state := st', reconnectAfter := ra, nextSync := ns,
          outstanding := outs.erase k, resolutions := res ++ [(k, r)] } := by
  refine ⟨h1.erase k, ?_, ?_, ?_, ?_, ?_⟩
  · exact fun j hj => h2 j (List.mem_of_mem_erase hj)
  · simp only [List.map_append, List.map_cons, List.map_nil, List.nodup_append]
    refine ⟨h3, List.nodup_singleton k, ?_⟩
    intro a ha hb
    simp only [List.mem_singleton] at hb
    subst hb
    exact h5 a hk ha
  · intro j hj
    simp only [List.map_append, List.map_cons, List.map_nil, List.mem_append,
      List.mem_singleton] at hj
    rcases hj with hj | hj
    · exact h4 j hj
    · subst hj; exact h2 j hk
  · intro j hj
    have hj' := (h1.mem_erase_iff).mp hj
    simp only [List.map_append, List.map_cons, List.map_nil, List.mem_append,
      List.mem_singleton]
    push_neg
    exact ⟨h5 j hj'.2, hj'.1⟩
  · intro hbc
    exfalso
    have := hst hbc
    subst this
    exact absurd hk (List.not_mem_nil k)

theorem inv_step (m : ConnModel) (e : Event) (h : Inv m) : Inv (step m e) := by
  obtain ⟨st, ra, ns, outs, res⟩ := m
  obtain ⟨h1, h2, h3, h4, h5, h6⟩ := h
  cases e with
  | submit =>
    have hfresh : ns ∉ outs := fun hmem => absurd (h2 ns hmem) (lt_irrefl ns)
    have hResFresh : ns ∉ res.map Prod.fst :=
      fun hmem => absurd (h4 ns hmem) (lt_irrefl ns)
    have key : ∀ st' : ConnState, st' ≠ ConnState.broken → st' ≠ ConnState.closed →
        Inv { state := st', reconnectAfter := ra, nextSync := ns + 1,
              outstanding := outs ++ [ns], resolutions := res } := by
      intro st' hb hc
      simp only [Inv]
      refine ⟨?_, ?_, h3, ?_, ?_, ?_⟩
      · simp only [List.nodup_append, List.nodup_singleton]
        refine ⟨h1, trivial, fun a ha hb' => ?_⟩
        simp only [List.mem_singleton] at hb'
        subst hb'
        exact hfresh ha
      · intro k hk
        simp only [List.mem_append, List.mem_singleton] at hk
        rcases hk with hk | hk
        · exact Nat.lt_succ_of_lt (h2 k hk)
        · omega
      · exact fun k hk => Nat.lt_succ_of_lt (h4 k hk)
      · intro k hk
        simp only [List.mem_append, List.mem_singleton] at hk
        rcases hk with hk | hk
        · exact h5 k hk
        · subst hk; exact hResFresh
      · intro hbc
        rcases hbc with hbc | hbc
        · exact absurd hbc hb
        · exact absurd hbc hc
    cases st with
    | broken => exact ⟨h1, h2, h3, h4, h5, h6⟩
    | closed => exact ⟨h1, h2, h3, h4, h5, h6⟩
    | initial => exact key _ (by simp) (by simp)
    | connecting => exact key _ (by simp) (by simp)
    | authenticating => exact key _ (by simp) (by simp)
    | ready => exact key _ (by simp) (by simp)
    | reconnecting => exact key _ (by simp) (by simp)
  | frameArrived k =>
    simp only [step]
    by_cases hc : st = ConnState.ready ∧ k ∈ outs
    · rw [if_pos hc]
      exact inv_resolve_one _ ra ns k outs res _ (by rw [hc.1]; simp) hc.2 h1 h2 h3 h4 h5
    · rw [if_neg hc]; exact ⟨h1, h2, h3, h4, h5, h6⟩
  | timeoutFired k =>
    simp only [step]
    by_cases hc : k ∈ outs
    · rw [if_pos hc]
      refine inv_resolve_one _ ra ns k outs res _ ?_ hc h1 h2 h3 h4 h5
      exact h6
    · rw [if_neg hc]; exact ⟨h1, h2, h3, h4, h5, h6⟩
  | ioError =>
    cases st with
    | ready => exact inv_disconnect _ ra ns outs res h1 h2 h3 h4 h5
    | connecting => exact inv_disconnect _ ra ns outs res h1 h2 h3 h4 h5
    | authenticating => exact inv_disconnect _ ra ns outs res h1 h2 h3 h4 h5
    | initial => exact ⟨h1, h2, h3, h4, h5, h6⟩
    | broken => exact ⟨h1, h2, h3, h4, h5, h6⟩
    | reconnecting => exact ⟨h1, h2, h3, h4, h5, h6⟩
    | closed => exact ⟨h1, h2, h3, h4, h5, h6⟩
  | connectStart =>
    simp only [step]
    by_cases hc : st = ConnState.initial
    · rw [if_pos hc]
      exact ⟨h1, h2, h3, h4, h5, by intro hbc; exact absurd hbc (by simp)⟩
    · rw [if_neg hc]; exact ⟨h1, h2, h3, h4, h5, h6⟩
  | connectOk =>
    simp only [step]
    by_cases hc : st = ConnState.connecting ∨ st = ConnState.reconnecting
    · rw [if_pos hc]
      exact ⟨h1, h2, h3, h4, h5, by intro hbc; exact absurd hbc (by simp)⟩
    · rw [if_neg hc]; exact ⟨h1, h2, h3, h4, h5, h6⟩
  | connectFail =>
    simp only [step]
    by_cases hc : st = ConnState.connecting ∨ st = ConnState.reconnecting
    · rw [if_pos hc]
      exact inv_disconnect _ ra ns outs res h1 h2 h3 h4 h5
    · rw [if_neg hc]; exact ⟨h1, h2, h3, h4, h5, h6⟩
  | authOk =>
    simp only [step]
    by_cases hc : st = ConnState.authenticating
    · rw [if_pos hc]
      exact ⟨h1, h2, h3, h4, h5, by intro hbc; exact absurd hbc (by simp)⟩
    · rw [if_neg hc]; exact ⟨h1, h2, h3, h4, h5, h6⟩
  | authFail =>
    simp only [step]
    by_cases hc : st = ConnState.authenticating
    · rw [if_pos hc]
      exact inv_disconnect _ ra ns outs res h1 h2 h3 h4 h5
    · rw [if_neg hc]; exact ⟨h1, h2, h3, h4, h5, h6⟩
  | tick =>
    simp only [step]
    by_cases hc : st = ConnState.broken ∧ ra ≠ 0
    · rw [if_pos hc]
      exact ⟨h1, h2, h3, h4, h5, by intro hbc; exact absurd hbc (by simp)⟩
    · rw [if_neg hc]; exact ⟨h1, h2, h3, h4, h5, h6⟩
  | close =>
    simp only [step]
    by_cases hc : st = ConnState.closed
    · rw [if_pos hc]; exact ⟨h1, h2, h3, h4, h5, h6⟩
    · rw [if_neg hc]
      exact inv_disconnect _ ra ns outs res h1 h2 h3 h4 h5

theorem inv_run (m : ConnModel) (evs : List Event) (h : Inv m) : Inv (run m evs) := by
  induction evs generalizing m with
  | nil => exact h
  | cons e evs ih => exact ih (step m e) (inv_step m e h)

/-- The connection model reached from a fresh handle by a sequence of
events. -/
def connAfter (reconnectAfter : Nat) (evs : List Event) : ConnModel :=
  run (ConnModel.init reconnectAfter) evs

theorem inv_connAfter (reconnectAfter : Nat) (evs : List Event) :
    Inv (connAfter reconnectAfter evs) :=
  inv_run _ evs (inv_init reconnectAfter)

theorem filter_eq_nil_of_not_mem_map (res : List (Nat × Resolution)) (k : Nat)
    (h : k ∉ res.map Prod.fst) :
    res.filter (fun p => p.1 == k) = [] := by
  induction res with
  | nil => rfl
  | cons p l ih =>
    simp only [List.map_cons, List.mem_cons, not_or] at h
    simp only [List.filter_cons]
    rw [if_neg (by simpa using Ne.symm h.1)]
    exact ih h.2

theorem filter_resolveAll_of_not_mem (outs : List Nat) (k : Nat) (hk : k ∉ outs) :
    (resolveAll outs).filter (fun p => p.1 == k) = [] := by
  apply filter_eq_nil_of_not_mem_map
  rw [map_fst_resolveAll]
  exact hk

theorem filter_resolveAll_of_mem (outs : List Nat) (k : Nat)
    (hnd : outs.Nodup) (hk : k ∈ outs) :
    (resolveAll outs).filter (fun p => p.1 == k) = [(k, Resolution.connectionLost)] := by
  induction outs with
  | nil => cases hk
  | cons a l ih =>
    rcases List.mem_cons.mp hk with rfl | hk'
    · have hnotin : k ∉ l := (List.nodup_cons.mp hnd).1
      simp only [resolveAll, List.map_cons, List.filter_cons]
      rw [if_pos (by simp)]
      rw [show List.map (fun j => (j, Resolution.connectionLost)) l = resolveAll l from rfl]
      rw [filter_resolveAll_of_not_mem l k hnotin]
    · have hne : a ≠ k := fun h => by
        subst h
        exact (List.nodup_cons.mp hnd).1 hk'
      simp only [resolveAll, List.map_cons, List.filter_cons]
      rw [if_neg (by simpa using hne)]
      exact ih (List.nodup_cons.mp hnd).2 hk'

theorem disconnect_resolves_once (m : ConnModel) (hInv : Inv m) (k : Nat)
    (hk : k ∈ m.outstanding) (hready : m.state = ConnState.ready) :
    (step m Event.ioError).resolutions.filter (fun p => p.1 == k)
        = [(k, Resolution.connectionLost)] ∧
    (step m Event.close).resolutions.filter (fun p => p.1 == k)
        = [(k, Resolution.connectionLost)] := by
  obtain ⟨st, ra, ns, outs, res⟩ := m
  obtain ⟨h1, h2, h3, h4, h5, h6⟩ := hInv
  simp only at hready hk h1 h5
  subst hready
  have hres : res.filter (fun p => p.1 == k) = [] :=
    filter_eq_nil_of_not_mem_map res k (h5 k hk)
  constructor
  · simp only [step, List.filter_append, hres, List.nil_append]
    exact filter_resolveAll_of_mem outs k h1 hk
  · simp only [step]
    rw [if_neg (by simp)]
    simp only [List.filter_append, hres, List.nil_append]
    exact filter_resolveAll_of_mem outs k h1 hk

/-- C1: for every sequence of events on one connection, no two
simultaneously outstanding requests share a correlation id, and the next
id to be issued is distinct from every outstanding id and from every id
ever resolved — an issued id stays unique until its PendingRequest is
resolved. -/
theorem correlation_ids_unique (reconnectAfter : Nat) (evs : List Event) :
    (connAfter reconnectAfter evs).outstanding.Nodup ∧
    (connAfter reconnectAfter evs).nextSync ∉
        (connAfter reconnectAfter evs).outstanding ∧
    (connAfter reconnectAfter evs).nextSync ∉
        (connAfter reconnectAfter evs).resolutions.map Prod.fst := by
  obtain ⟨h1, h2, h3, h4, h5, h6⟩ := inv_connAfter reconnectAfter evs
  exact ⟨h1, fun hm => absurd (h2 _ hm) (lt_irrefl _),
         fun hm => absurd (h4 _ hm) (lt_irrefl _)⟩

/-- C2: along every event sequence each PendingRequest is resolved at most
once (the resolved correlation ids are pairwise distinct), and when a
`Ready` connection is lost or closed, each outstanding request receives a
ConnectionLost resolution exactly once — never twice and never zero
times. -/
theorem pending_resolved_exactly_once (reconnectAfter : Nat) (evs : List Event)
    (k : Nat) :
    ((connAfter reconnectAfter evs).resolutions.map Prod.fst).Nodup ∧
    (k ∈ (connAfter reconnectAfter evs).outstanding →
      (connAfter reconnectAfter evs).state = ConnState.ready →
      (step (connAfter reconnectAfter evs) Event.ioError).resolutions.filter
          (fun p => p.1 == k) = [(k, Resolution.connectionLost)] ∧
      (step (connAfter reconnectAfter evs) Event.close).resolutions.filter
          (fun p => p.1 == k) = [(k, Resolution.connectionLost)]) := by
  have hInv := inv_connAfter reconnectAfter evs
  exact ⟨hInv.2.2.1, fun hk hready =>
    disconnect_resolves_once _ hInv k hk hready⟩

theorem pending_resolved_exactly_once_witness :
    ((connAfter 0 [Event.connectStart, Event.connectOk, Event.authOk,
        Event.submit]).resolutions.map Prod.fst).Nodup ∧
    ((step (connAfter 0 [Event.connectStart, Event.connectOk, Event.authOk,
        Event.submit]) Event.ioError).resolutions.filter (fun p => p.1 == 0)
        = [(0, Resolution.connectionLost)] ∧
     (step (connAfter 0 [Event.connectStart, Event.connectOk, Event.authOk,
        Event.submit]) Event.close).resolutions.filter (fun p => p.1 == 0)
        = [(0, Resolution.connectionLost)]) := by
  have h := pending_resolved_exactly_once 0
    [Event.connectStart, Event.connectOk, Event.authOk, Event.submit] 0
  exact ⟨h.1, h.2 (by decide) (by decide)⟩

theorem timeout_step_local (m : ConnModel) (hInv : Inv m) (k : Nat)
    (hk : k ∈ m.outstanding) :
    (step m (Event.timeoutFired k)).state = m.state ∧
    (step m (Event.timeoutFired k)).resolutions
        = m.resolutions ++ [(k, Resolution.timeout)] ∧
    k ∉ (step m (Event.timeoutFired k)).outstanding ∧
    (∀ j ∈ m.outstanding, j ≠ k →
        j ∈ (step m (Event.timeoutFired k)).outstanding) := by
  have h1 := hInv.1
  refine ⟨?_, ?_, ?_, ?_⟩
  · simp [step, if_pos hk]
  · simp [step, if_pos hk]
  · simp only [step, if_pos hk]
    intro hmem
    exact absurd ((h1.mem_erase_iff).mp hmem).1 (by simp)
  · intro j hj hne
    simp only [step, if_pos hk]
    exact (h1.mem_erase_iff).mpr ⟨hne, hj⟩

/-- C7: when a per-request timeout fires for an outstanding request, that
caller alone is resolved with a Timeout error: the connection's lifecycle
state is unchanged, exactly one Timeout resolution is appended for that
request, and every other outstanding request stays outstanding. -/
theorem timeout_is_local (reconnectAfter : Nat) (evs : List Event) (k : Nat)
    (hk : k ∈ (connAfter reconnectAfter evs).outstanding) :
    (step (connAfter reconnectAfter evs) (Event.timeoutFired k)).state
        = (connAfter reconnectAfter evs).state ∧
    (step (connAfter reconnectAfter evs) (Event.timeoutFired k)).resolutions
        = (connAfter reconnectAfter evs).resolutions ++ [(k, Resolution.timeout)] ∧
    k ∉ (step (connAfter reconnectAfter evs) (Event.timeoutFired k)).outstanding ∧
    (∀ j ∈ (connAfter reconnectAfter evs).outstanding, j ≠ k →
        j ∈ (step (connAfter reconnectAfter evs) (Event.timeoutFired k)).outstanding) :=
  timeout_step_local _ (inv_connAfter reconnectAfter evs) k hk

theorem timeout_is_local_witness :
    0 ∈ (connAfter 0 [Event.connectStart, Event.connectOk, Event.authOk,
        Event.submit]).outstanding ∧
    (step (connAfter 0 [Event.connectStart, Event.connectOk, Event.authOk,
        Event.submit]) (Event.timeoutFired 0)).state
      = (connAfter 0 [Event.connectStart, Event.connectOk, Event.authOk,
        Event.submit]).state :=
  ⟨by decide, (timeout_is_local 0
      [Event.connectStart, Event.connectOk, Event.authOk, Event.submit] 0
      (by decide)).1⟩

theorem broken_stays (m : ConnModel) (hra : m.reconnectAfter = 0)
    (hst : m.state = ConnState.broken ∨ m.state = ConnState.closed) (e : Event) :
    (step m e).reconnectAfter = 0 ∧
    ((step m e).state = ConnState.broken ∨ (step m e).state = ConnState.closed) ∧
    (e ≠ Event.close → m.state = ConnState.broken →
        (step m e).state = ConnState.broken) := by
  obtain ⟨st, ra, ns, outs, res⟩ := m
  simp only at hra hst
  subst hra
  cases e with
  | submit =>
    rcases hst with h | h <;> subst h
    · exact ⟨rfl, Or.inl rfl, fun _ _ => rfl⟩
    · exact ⟨rfl, Or.inr rfl, fun _ h => absurd h (by simp)⟩
  | frameArrived k =>
    refine ⟨?_, ?_, ?_⟩ <;>
      · rcases hst with h | h <;> subst h <;>
          simp [step]
  | timeoutFired k =>
    constructor
    · simp only [step]
      split <;> rfl
    constructor
    · simp only [step]
      split <;> simpa using hst
    · intro _ hbr
      simp only at hbr
      subst hbr
      simp only [step]
      split <;> rfl
  | ioError =>
    rcases hst with h | h <;> subst h
    · exact ⟨rfl, Or.inl rfl, fun _ _ => rfl⟩
    · exact ⟨rfl, Or.inr rfl, fun _ h => absurd h (by simp)⟩
  | connectStart =>
    rcases hst with h | h <;> subst h <;> simp [step]
  | connectOk =>
    rcases hst with h | h <;> subst h <;> simp [step]
  | connectFail =>
    rcases hst with h | h <;> subst h <;> simp [step]
  | authOk =>
    rcases hst with h | h <;> subst h <;> simp [step]
  | authFail =>
    rcases hst with h | h <;> subst h <;> simp [step]
  | tick =>
    rcases hst with h | h <;> subst h <;> simp [step]
  | close =>
    rcases hst with h | h <;> subst h <;> simp [step]

theorem broken_forever (m : ConnModel) (evs : List Event)
    (hra : m.reconnectAfter = 0)
    (hst : m.state = ConnState.broken ∨ m.state = ConnState.closed) :
    (run m evs).is_connected = false ∧
    (Event.close ∉ evs → m.state = ConnState.broken →
        (run m evs).state = ConnState.broken) := by
  induction evs generalizing m with
  | nil =>
    refine ⟨?_, fun _ h => h⟩
    rcases hst with h | h <;> simp [run, ConnModel.is_connected, h]
  | cons e evs ih =>
    obtain ⟨hra', hst', hbr'⟩ := broken_stays m hra hst e
    have hrun : run m (e :: evs) = run (step m e) evs := rfl
    obtain ⟨ih1, ih2⟩ := ih (step m e) hra' hst'
    refine ⟨by rw [hrun]; exact ih1, ?_⟩
    intro hclose hbr
    rw [hrun]
    have hne : e ≠ Event.close := fun h => hclose (by simp [h])
    exact ih2 (fun h => hclose (List.mem_cons_of_mem _ h)) (hbr' hne hbr)

/-- C8: with `reconnect_after = 0`, once the connect attempt to a refusing
peer fails the connection is `Broken`, `is_connected` is `false` and stays
`false` after every further event sequence, and — absent an explicit
close — the state remains `Broken` forever: no automatic reconnection is
ever attempted. -/
theorem no_reconnect_when_interval_zero (evs : List Event) :
    (run (ConnModel.init 0)
        ([Event.connectStart, Event.connectFail] ++ evs)).is_connected = false ∧
    (Event.close ∉ evs →
      (run (ConnModel.init 0)
          ([Event.connectStart, Event.connectFail] ++ evs)).state
        = ConnState.broken) := by
  have hsplit : run (ConnModel.init 0) ([Event.connectStart, Event.connectFail] ++ evs)
      = run (run (ConnModel.init 0) [Event.connectStart, Event.connectFail]) evs := by
    simp [run, List.foldl_append]
  have hbase : run (ConnModel.init 0) [Event.connectStart, Event.connectFail]
      = { state := ConnState.broken, reconnectAfter := 0, nextSync := 0,
          outstanding := [], resolutions := [] } := by decide
  rw [hsplit, hbase]
  have h := broken_forever
    { state := ConnState.broken, reconnectAfter := 0, nextSync := 0,
      outstanding := [], resolutions := [] } evs rfl (Or.inl rfl)
  exact ⟨h.1, fun hc => h.2 hc rfl⟩

theorem no_reconnect_when_interval_zero_witness :
    (run (ConnModel.init 0)
        ([Event.connectStart, Event.connectFail] ++ [Event.tick])).is_connected
      = false ∧
    (run (ConnModel.init 0)
        ([Event.connectStart, Event.connectFail] ++ [Event.tick])).state
      = ConnState.broken :=
  ⟨(no_reconnect_when_interval_zero [Event.tick]).1,
   (no_reconnect_when_interval_zero [Event.tick]).2 (by decide)⟩

/-- Modelled from the spec: the peer at the target address, with its one
observable property — whether it accepts connections. -/
structure Peer where
  reachable : Bool

/-- Modelled from the spec: `Conn::new` merely records the connection
options and returns the handle in the `Initial` state; it performs no
network I/O, so it succeeds whatever the peer is. -/
def Conn.new (addr : Peer) (reconnectAfter : Nat) : Except Error ConnModel :=
  Except.ok (ConnModel.init reconnectAfter)

/-- Modelled from the spec: `ping` on a fresh handle drives the
connect/authenticate handshake (§4.4) and is the first operation to touch
the network; a refusing peer surfaces the connection error here, a
reachable one brings the connection to `Ready`. -/
def ping (addr : Peer) (m : ConnModel) : Except Error Unit × ConnModel :=
  match m.state with
  | .initial =>
    if addr.reachable then
      (Except.ok (), run m [Event.connectStart, Event.connectOk, Event.authOk])
    else
      (Except.error Error.connectionLost, run m [Event.connectStart, Event.connectFail])
  | .ready => (Except.ok (), m)
  | .closed => (Except.error Error.connectionClosed, m)
  | _ => (Except.error Error.connectionLost, m)

/-- C10: `Conn::new` returns `Ok` without any network I/O — its result is
the `Initial`-state handle whatever the peer — `is_connected` is `false`
before any request, the connection error of an unreachable peer surfaces
only from the first `ping`, and `is_connected` becomes `true` exactly when
that first request established the connection. -/
theorem conn_new_defers_io (addr : Peer) (reconnectAfter : Nat) :
    Conn.new addr reconnectAfter = Except.ok (ConnModel.init reconnectAfter) ∧
    (ConnModel.init reconnectAfter).is_connected = false ∧
    ((ping addr (ConnModel.init reconnectAfter)).1
        = if addr.reachable then Except.ok ()
          else Except.error Error.connectionLost) ∧
    (ping addr (ConnModel.init reconnectAfter)).2.is_connected
        = addr.reachable := by
  obtain ⟨r⟩ := addr
  cases r <;> exact ⟨rfl, rfl, rfl, rfl⟩

/-! ## Schema cache and the RemoteSpace facade

The `RemoteSpace` facade is embedded from
`src/tarantool/src/net_box/space.rs`; the schema cache, `ConnInner` and
`RemoteIndex` it delegates to are modelled from the spec (§4.2, §4.4). -/

/-- Modelled from the spec: the server's current schema — its version
counter and the name→id tables for spaces and (space, name)→id for
indexes. -/
structure ServerSchema where
  version : Nat
  spaces : List (String × Nat)
  indexes : List ((Nat × String) × Nat)

/-- Modelled from the spec: the client-side schema cache with its cached
version counter (§4.2). -/
structure SchemaCache where
  version : Nat
  spaces : List (String × Nat)
  indexes : List ((Nat × String) × Nat)
deriving DecidableEq

/-- Outcome of one schema lookup: the result (a miss is an empty result,
not an error), the updated cache, and how many network round-trips the
lookup issued. -/
structure LookupOutcome (α : Type) where
  result : Except Error (Option α)
  cache : SchemaCache
  roundTrips : Nat

/-- Modelled from the spec: "if an incoming version differs from the
cached version, the entire cache is cleared before the counter is
updated" (§4.2). -/
def processSchemaVersion (c : SchemaCache) (v : Nat) : SchemaCache :=
  if v ≠ c.version then { version := v, spaces := [], indexes := [] } else c

/-- Modelled from the spec: `lookup_space(name)` — a cache hit is answered
synchronously with zero round-trips; a miss issues one round-trip, a
server hit repopulates the cache, and an unknown name is an empty result
(`NotFound`), not an error (§4.2, §7). -/
def lookup_space (server : ServerSchema) (c : SchemaCache) (name : String) :
    LookupOutcome Nat :=
  match c.spaces.lookup name with
  | some id => ⟨Except.ok (some id), c, 0⟩
  | none =>
    match server.spaces.lookup name with
    | some id => ⟨Except.ok (some id), { c with spaces := (name, id) :: c.spaces }, 1⟩
    | none => ⟨Except.ok none, c, 1⟩

/-- Modelled from the spec: `lookup_index(name, space_id)`, with the same
hit/miss/NotFound contract as `lookup_space` (§4.2, §7). -/
def lookup_index (server : ServerSchema) (c : SchemaCache) (name : String)
    (space_id : Nat) : LookupOutcome Nat :=
  match c.indexes.lookup (space_id, name) with
  | some id => ⟨Except.ok (some id), c, 0⟩
  | none =>
    match server.indexes.lookup (space_id, name) with
    | some id =>
      ⟨Except.ok (some id), { c with indexes := ((space_id, name), id) :: c.indexes }, 1⟩
    | none => ⟨Except.ok none, c, 1⟩

/-- A decoded tuple: an ordered sequence of typed fields. -/
abbrev Tuple := List Value

/-- Per-call request options (`Options { timeout }`). -/
structure Options where
  timeout : Option Nat

/-- Iterator-type classification of a range scan. -/
inductive IteratorType where
  | eq
  | lt
  | le
  | ge
  | gt
  | all

/-- One update operation as the caller supplies it (test type
`QueryOperation`): opcode string (as bytes), field index, new value. -/
structure QueryOperation where
  op : List Nat
  field_id : Nat
  value : Value

/-- Modelled from the spec: the request bodies of the CRUD commands with
the numeric space/index ids they carry (§4.1, §4.4). -/
inductive Request where
  | insert (space_id : Nat) (value : Tuple)
  | replace (space_id : Nat) (value : Tuple)
  | select (space_id index_id : Nat) (iterator_type : IteratorType) (key : Tuple)
  | get (space_id index_id : Nat) (key : Tuple)
  | update (space_id index_id : Nat) (key : Tuple) (ops : List QueryOperation)
  | upsert (space_id index_id : Nat) (value : Tuple) (ops : List QueryOperation)
  | delete (space_id index_id : Nat) (key : Tuple)

/-- The response behaviour of one connection: what result each submitted
request produces. -/
def ConnEnv := Request → Options → Except Error (Option Tuple)

/-- Modelled from the spec: `ConnInner::request` — build request → submit
through the multiplexer → decode the typed result (§4.4). -/
def ConnInner.request (env : ConnEnv) (req : Request) (options : Options) :
    Except Error (Option Tuple) :=
  env req options

/-- Remote index handle: the resolved numeric space and index ids. -/
structure RemoteIndex where
  space_id : Nat
  index_id : Nat

/-- Modelled from the spec: `RemoteIndex::get` submits a get request
carrying the handle's resolved ids. -/
def RemoteIndex.get (env : ConnEnv) (i : RemoteIndex) (key : Tuple)
    (options : Options) : Except Error (Option Tuple) :=
  ConnInner.request env (Request.get i.space_id i.index_id key) options

/-- Modelled from the spec: `RemoteIndex::select` submits a select request
carrying the handle's resolved ids and the iterator type. -/
def RemoteIndex.select (env : ConnEnv) (i : RemoteIndex)
    (iterator_type : IteratorType) (key : Tuple) (options : Options) :
    Except Error (Option Tuple) :=
  ConnInner.request env (Request.select i.space_id i.index_id iterator_type key) options

/-- Modelled from the spec: `RemoteIndex::update` submits an update request
with the caller's operation list. -/
def RemoteIndex.update (env : ConnEnv) (i : RemoteIndex) (key : Tuple)
    (ops : List QueryOperation) (options : Options) : Except Error (Option Tuple) :=
  ConnInner.request env (Request.update i.space_id i.index_id key ops) options

/-- Modelled from the spec: `RemoteIndex::upsert` submits an upsert request
with the caller's operation list. -/
def RemoteIndex.upsert (env : ConnEnv) (i : RemoteIndex) (value : Tuple)
    (ops : List QueryOperation) (options : Options) : Except Error (Option Tuple) :=
  ConnInner.request env (Request.upsert i.space_id i.index_id value ops) options

/-- Modelled from the spec: `RemoteIndex::delete` submits a delete request
carrying the handle's resolved ids. -/
def RemoteIndex.delete (env : ConnEnv) (i : RemoteIndex) (key : Tuple)
    (options : Options) : Except Error (Option Tuple) :=
  ConnInner.request env (Request.delete i.space_id i.index_id key) options

/-- Remote space handle (space.rs:13): the resolved numeric space id. -/
structure RemoteSpace where
  space_id : Nat

/-- `RemoteSpace::primary_key` (space.rs:37): the index with id 0 of this
space. -/
def RemoteSpace.primary_key (s : RemoteSpace) : RemoteIndex :=
  RemoteIndex.mk s.space_id 0

/-- `RemoteSpace::index` (space.rs:28): resolve the index name through the
schema cache, mapping a hit to a `RemoteIndex` handle and propagating a
lookup failure. -/
def RemoteSpace.index (server : ServerSchema) (c : SchemaCache)
    (s : RemoteSpace) (name : String) :
    Except Error (Option RemoteIndex) × SchemaCache :=
  let o := lookup_index server c name s.space_id
  (o.result.map (fun opt => opt.map (fun index_id => RemoteIndex.mk s.space_id index_id)),
   o.cache)

/-- `RemoteSpace::get` (space.rs:44): delegate to the primary key index. -/
def RemoteSpace.get (env : ConnEnv) (s : RemoteSpace) (key : Tuple)
    (options : Options) : Except Error (Option Tuple) :=
  RemoteIndex.get env s.primary_key key options

/-- `RemoteSpace::select` (space.rs:54): delegate to the primary key
index. -/
def RemoteSpace.select (env : ConnEnv) (s : RemoteSpace)
    (iterator_type : IteratorType) (key : Tuple) (options : Options) :
    Except Error (Option Tuple) :=
  RemoteIndex.select env s.primary_key iterator_type key options

/-- `RemoteSpace::insert` (space.rs:69): submit an insert request for this
space directly. -/
def RemoteSpace.insert (env : ConnEnv) (s : RemoteSpace) (value : Tuple)
    (options : Options) : Except Error (Option Tuple) :=
  ConnInner.request env (Request.insert s.space_id value) options

/-- `RemoteSpace::replace` (space.rs:85): submit a replace request for this
space directly. -/
def RemoteSpace.replace (env : ConnEnv) (s : RemoteSpace) (value : Tuple)
    (options : Options) : Except Error (Option Tuple) :=
  ConnInner.request env (Request.replace s.space_id value) options

/-- `RemoteSpace::update` (space.rs:101): delegate to the primary key
index. -/
def RemoteSpace.update (env : ConnEnv) (s : RemoteSpace) (key : Tuple)
    (ops : List QueryOperation) (options : Options) : Except Error (Option Tuple) :=
  RemoteIndex.update env s.primary_key key ops options

/-- `RemoteSpace::upsert` (space.rs:117): delegate to the primary key
index. -/
def RemoteSpace.upsert (env : ConnEnv) (s : RemoteSpace) (value : Tuple)
    (ops : List QueryOperation) (options : Options) : Except Error (Option Tuple) :=
  RemoteIndex.upsert env s.primary_key value ops options

/-- `RemoteSpace::delete` (space.rs:133): delegate to the primary key
index. -/
def RemoteSpace.delete (env : ConnEnv) (s : RemoteSpace) (key : Tuple)
    (options : Options) : Except Error (Option Tuple) :=
  RemoteIndex.delete env s.primary_key key options

/-- Modelled from the spec: `Conn::space(name)` resolves the space name
through the schema cache, mapping a hit to a `RemoteSpace` handle (§4.4,
§6). -/
def Conn.space (server : ServerSchema) (c : SchemaCache) (name : String) :
    Except Error (Option RemoteSpace) × SchemaCache :=
  let o := lookup_space server c name
  (o.result.map (fun opt => opt.map RemoteSpace.mk), o.cache)

/-- Modelled from the spec: one update operation encoded as its
(opcode, field index, value) triple. -/
def encodeOp (o : QueryOperation) : Value :=
  Value.arr [Value.str o.op, Value.int (Int.ofNat o.field_id), o.value]

/-- Modelled from the spec: the operation list encoded as the ordered
sequence of encoded triples, in caller order. -/
def encodeOps (ops : List QueryOperation) : List Value :=
  ops.map encodeOp

/-- C3: for every value of a supported field type — numeric, string,
binary, nil, boolean, or nested array/map — decoding the encoding yields
exactly the original value: `decode (encode v) = some v`. -/
theorem wire_codec_roundtrip (v : Value) : decode (encode v) = some v := by
  have hd : depthVal v ≤ (encodeVal v).length :=
    (depth_le_length_fuel (depthVal v)).1 v le_rfl
  have h := (decode_encode_fuel ((encodeVal v).length)).1 v [] hd
  rw [List.append_nil] at h
  simp [decode, encode, h]

/-- C4: looking up a space or index name unknown to the server yields an
empty result (`Ok` of `None`), not an `Err`: `Conn::space` and
`RemoteSpace::index` distinguish a NotFound miss from a failure. -/
theorem notfound_is_empty_result (server : ServerSchema) (c : SchemaCache)
    (s : RemoteSpace) (name : String)
    (hcs : c.spaces.lookup name = none)
    (hss : server.spaces.lookup name = none)
    (hci : c.indexes.lookup (s.space_id, name) = none)
    (hsi : server.indexes.lookup (s.space_id, name) = none) :
    (Conn.space server c name).1 = Except.ok none ∧
    (RemoteSpace.index server c s name).1 = Except.ok none := by
  constructor
  · simp [Conn.space, lookup_space, hcs, hss, Except.map]
  · simp [RemoteSpace.index, lookup_index, hci, hsi, Except.map]

theorem notfound_is_empty_result_witness :
    (Conn.space (ServerSchema.mk 7 [] []) (SchemaCache.mk 7 [] []) "test_s_tmp").1
        = Except.ok none ∧
    (RemoteSpace.index (ServerSchema.mk 7 [] []) (SchemaCache.mk 7 [] [])
        (RemoteSpace.mk 5) "idx_tmp").1 = Except.ok none :=
  notfound_is_empty_result (ServerSchema.mk 7 [] []) (SchemaCache.mk 7 [] [])
    (RemoteSpace.mk 5) "test_s_tmp" rfl rfl rfl rfl

/-- C6: when a decoded response carries a schema version different from
the cached one, the whole cache is cleared before the version counter is
updated, so no later lookup can return a stale id; the next lookup of a
previously cached name issues exactly one re-resolution round-trip, after
which the repopulated cache answers with zero round-trips. -/
theorem schema_bump_clears_then_re_resolves_once (c : SchemaCache) (v : Nat)
    (server : ServerSchema) (name : String) (id : Nat)
    (hv : v ≠ c.version)
    (hs : server.spaces.lookup name = some id) :
    (processSchemaVersion c v).spaces = [] ∧
    (processSchemaVersion c v).indexes = [] ∧
    (processSchemaVersion c v).version = v ∧
    (lookup_space server (processSchemaVersion c v) name).roundTrips = 1 ∧
    (lookup_space server (processSchemaVersion c v) name).result
        = Except.ok (some id) ∧
    (lookup_space server
        (lookup_space server (processSchemaVersion c v) name).cache name).roundTrips
      = 0 ∧
    (lookup_space server
        (lookup_space server (processSchemaVersion c v) name).cache name).result
      = Except.ok (some id) := by
  have hc : processSchemaVersion c v = SchemaCache.mk v [] [] := by
    simp [processSchemaVersion, hv]
  rw [hc]
  refine ⟨rfl, rfl, rfl, ?_, ?_, ?_, ?_⟩ <;>
    simp [lookup_space, hs, List.lookup]

theorem schema_bump_clears_then_re_resolves_once_witness :
    (processSchemaVersion (SchemaCache.mk 7 [("test_s2", 3)] []) 8).spaces = [] ∧
    (processSchemaVersion (SchemaCache.mk 7 [("test_s2", 3)] []) 8).indexes = [] ∧
    (processSchemaVersion (SchemaCache.mk 7 [("test_s2", 3)] []) 8).version = 8 ∧
    (lookup_space (ServerSchema.mk 8 [("test_s2", 3)] [])
        (processSchemaVersion (SchemaCache.mk 7 [("test_s2", 3)] []) 8)
        "test_s2").roundTrips = 1 ∧
    (lookup_space (ServerSchema.mk 8 [("test_s2", 3)] [])
        (processSchemaVersion (SchemaCache.mk 7 [("test_s2", 3)] []) 8)
        "test_s2").result = Except.ok (some 3) ∧
    (lookup_space (ServerSchema.mk 8 [("test_s2", 3)] [])
        (lookup_space (ServerSchema.mk 8 [("test_s2", 3)] [])
          (processSchemaVersion (SchemaCache.mk 7 [("test_s2", 3)] []) 8)
          "test_s2").cache "test_s2").roundTrips = 0 ∧
    (lookup_space (ServerSchema.mk 8 [("test_s2", 3)] [])
        (lookup_space (ServerSchema.mk 8 [("test_s2", 3)] [])
          (processSchemaVersion (SchemaCache.mk 7 [("test_s2", 3)] []) 8)
          "test_s2").cache "test_s2").result = Except.ok (some 3) :=
  schema_bump_clears_then_re_resolves_once
    (SchemaCache.mk 7 [("test_s2", 3)] []) 8
    (ServerSchema.mk 8 [("test_s2", 3)] []) "test_s2" 3
    (by decide) (by decide)

/-- C5: the facade resolves names to numeric ids through the schema cache
before building any request — `Conn::space` returns the id the cache
lookup produced, `RemoteSpace::index` the id `lookup_index` produced,
`primary_key` is the index with id 0 — every CRUD request carries exactly
those resolved ids, and update/upsert operation lists are encoded as the
ordered sequence of (opcode, field index, value) triples in caller
order. -/
theorem facade_resolves_ids_before_encoding (server : ServerSchema)
    (c : SchemaCache) (sname iname : String) (sid iid : Nat) (s : RemoteSpace)
    (env : ConnEnv) (key value : Tuple) (ops : List QueryOperation)
    (iterator_type : IteratorType) (options : Options)
    (hs : (lookup_space server c sname).result = Except.ok (some sid))
    (hi : (lookup_index server c iname s.space_id).result = Except.ok (some iid)) :
    (Conn.space server c sname).1 = Except.ok (some (RemoteSpace.mk sid)) ∧
    (RemoteSpace.index server c s iname).1
        = Except.ok (some (RemoteIndex.mk s.space_id iid)) ∧
    RemoteSpace.primary_key (RemoteSpace.mk sid) = RemoteIndex.mk sid 0 ∧
    RemoteSpace.get env (RemoteSpace.mk sid) key options
        = env (Request.get sid 0 key) options ∧
    RemoteSpace.select env (RemoteSpace.mk sid) iterator_type key options
        = env (Request.select sid 0 iterator_type key) options ∧
    RemoteSpace.insert env (RemoteSpace.mk sid) value options
        = env (Request.insert sid value) options ∧
    RemoteSpace.replace env (RemoteSpace.mk sid) value options
        = env (Request.replace sid value) options ∧
    RemoteSpace.update env (RemoteSpace.mk sid) key ops options
        = env (Request.update sid 0 key ops) options ∧
    RemoteSpace.upsert env (RemoteSpace.mk sid) value ops options
        = env (Request.upsert sid 0 value ops) options ∧
    RemoteSpace.delete env (RemoteSpace.mk sid) key options
        = env (Request.delete sid 0 key) options ∧
    (encodeOps ops).length = ops.length ∧
    (∀ j, j < ops.length →
      (encodeOps ops).getD j Value.nil
        = encodeOp (ops.getD j (QueryOperation.mk [] 0 Value.nil))) := by
  refine ⟨?_, ?_, rfl, rfl, rfl, rfl, rfl, rfl, rfl, rfl, ?_, ?_⟩
  · simp [Conn.space, hs, Except.map]
  · simp [RemoteSpace.index, hi, Except.map]
  · simp [encodeOps]
  · intro j hj
    simp [encodeOps, List.getD, List.getElem?_map, List.getElem?_eq_getElem, hj]

theorem facade_resolves_ids_before_encoding_witness :
    (Conn.space (ServerSchema.mk 1 [("test_s2", 3)] [((3, "idx_1"), 4)])
        (SchemaCache.mk 1 [] []) "test_s2").1
      = Except.ok (some (RemoteSpace.mk 3)) ∧
    (RemoteSpace.index (ServerSchema.mk 1 [("test_s2", 3)] [((3, "idx_1"), 4)])
        (SchemaCache.mk 1 [] []) (RemoteSpace.mk 3) "idx_1").1
      = Except.ok (some (RemoteIndex.mk 3 4)) ∧
    RemoteSpace.replace (fun _ _ => Except.ok none) (RemoteSpace.mk 3)
        [Value.int 1] (Options.mk none)
      = (fun _ _ => Except.ok none) (Request.replace 3 [Value.int 1])
          (Options.mk none) ∧
    RemoteSpace.update (fun _ _ => Except.ok none) (RemoteSpace.mk 3)
        [Value.int 1] [QueryOperation.mk [61] 1 (Value.str [78])] (Options.mk none)
      = (fun _ _ => Except.ok none)
          (Request.update 3 0 [Value.int 1] [QueryOperation.mk [61] 1 (Value.str [78])])
          (Options.mk none) ∧
    (encodeOps [QueryOperation.mk [61] 1 (Value.str [78])]).getD 0 Value.nil
      = encodeOp ([QueryOperation.mk [61] 1 (Value.str [78])].getD 0
          (QueryOperation.mk [] 0 Value.nil)) := by
  have h := facade_resolves_ids_before_encoding
    (ServerSchema.mk 1 [("test_s2", 3)] [((3, "idx_1"), 4)])
    (SchemaCache.mk 1 [] []) "test_s2" "idx_1" 3 4 (RemoteSpace.mk 3)
    (fun _ _ => Except.ok none) [Value.int 1] [Value.int 1]
    [QueryOperation.mk [61] 1 (Value.str [78])] IteratorType.eq (Options.mk none)
    rfl rfl
  exact ⟨h.1, h.2.1, h.2.2.2.2.2.2.1, h.2.2.2.2.2.2.2.1,
    h.2.2.2.2.2.2.2.2.2.2.2 0 (by decide)⟩

/-- C9: each of `get`, `select`, `update`, `upsert` and `delete` on a
`RemoteSpace` returns exactly the result of the same operation on the
`RemoteIndex` with index id 0 of that space over the same connection — the
space-level CRUD operations delegate to the primary-key index. -/
theorem space_ops_delegate_to_primary_key (env : ConnEnv) (s : RemoteSpace)
    (iterator_type : IteratorType) (key value : Tuple)
    (ops : List QueryOperation) (options : Options) :
    RemoteSpace.get env s key options
        = RemoteIndex.get env (RemoteIndex.mk s.space_id 0) key options ∧
    RemoteSpace.select env s iterator_type key options
        = RemoteIndex.select env (RemoteIndex.mk s.space_id 0) iterator_type key options ∧
    RemoteSpace.update env s key ops options
        = RemoteIndex.update env (RemoteIndex.mk s.space_id 0) key ops options ∧
    RemoteSpace.upsert env s value ops options
        = RemoteIndex.upsert env (RemoteIndex.mk s.space_id 0) value ops options ∧
    RemoteSpace.delete env s key options
        = RemoteIndex.delete env (RemoteIndex.mk s.space_id 0) key options :=
  ⟨rfl, rfl, rfl, rfl, rfl⟩

end Tarantool
